import Mathlib

/-!
Verification of the circuit gate layer of the zkp-query (PoneglyphDB) repository.

The development shallowly embeds the witness computations and the polynomial /
lookup constraints of `src/circuit/range_check.rs`, the validation helpers of
`src/validation.rs`, and the higher SQL gates (sort, group-by, join,
aggregation).  The higher gate sources (`src/circuit/sort.rs`,
`src/circuit/group_by.rs`, `src/circuit/join.rs`, `src/circuit/aggregation.rs`)
are declared in `src/circuit/mod.rs` but absent from the tree, so those
operations are modelled from the specification, as their doc comments state.

Field elements of `pasta_curves::pallas::Base` are represented as natural
numbers below the modulus `FP`, with arithmetic performed modulo `FP`.
-/

/-- Modulus of the Pallas base field (`pasta_curves::pallas::Base`), the field
`Fr` used by every chip: `2^254 + 45560315531419706090280762371685220353`. -/
def FP : ℕ := 28948022309329048855892746252171976963363056481941560715954676764349967630337

/-- Field addition on the Pallas base field, on representatives below `FP`. -/
def fadd (a b : ℕ) : ℕ := (a + b) % FP

/-- Field subtraction on the Pallas base field. -/
def fsub (a b : ℕ) : ℕ := (a + (FP - b % FP)) % FP

/-- Field multiplication on the Pallas base field. -/
def fmul (a b : ℕ) : ℕ := (a * b) % FP

lemma FP_eq : FP = 2 ^ 254 + 45560315531419706090280762371685220353 := by decide

lemma FP_big : 2 ^ 66 < FP := by
  rw [FP_eq]
  have h : (2 : ℕ) ^ 66 < 2 ^ 254 := Nat.pow_lt_pow_right (by omega) (by omega)
  omega

lemma mod_FP_small {a : ℕ} (h : a < FP) : a % FP = a := Nat.mod_eq_of_lt h

lemma mod_FP_wrap {a : ℕ} (h1 : FP ≤ a) (h2 : a < 2 * FP) : a % FP = a - FP := by
  rw [Nat.mod_eq_sub_mod h1]
  exact Nat.mod_eq_of_lt (by omega)

namespace RangeCheckChip

/-- The shared 8-bit lookup table, loaded once with the 256 values 0..255
(`PoneglyphConfig::load_lookup_table`). -/
def lookupTable : List ℕ := List.range 256

/-- Witness values assigned by `RangeCheckChip::check_less_than`
(src/circuit/range_check.rs): the advice cell `x` (row 0 of `x_column`), the
fixed cells `t` and `u`, the boolean cell `check` (row 0 of `check_column`),
the cell `diff` (row 1 of the same column), and whether the function enabled
`diff_lookup_selector` (it does so exactly when `u < 256`). -/
structure LessThanWitness where
  x : ℕ
  t : ℕ
  u : ℕ
  check : ℕ
  diff : ℕ
  diffLookupEnabled : Bool
deriving Repr, DecidableEq

/-- Witness computation of `RangeCheckChip::check_less_than`: `check` is `1`
when `x < threshold` and `0` otherwise; `diff` is `(x - t) + u` in the field
when `check = 1` and `0` otherwise; the diff lookup selector is enabled only
when `u < 256`. -/
def checkLessThanWitness (x t u : ℕ) : LessThanWitness :=
  let xf := x % FP
  let tf := t % FP
  let uf := u % FP
  let check : ℕ := if x < t then 1 else 0
  let diff : ℕ := if x < t then fadd (fsub xf tf) uf else 0
  { x := xf, t := tf, u := uf, check := check, diff := diff,
    diffLookupEnabled := decide (u < 256) }

/-- Return value of `RangeCheckChip::check_less_than`: the function performs
its assignments and returns `Ok(check_cell)`; no input is rejected with an
error (the `u >= 256` branch merely skips enabling the diff lookup selector). -/
def check_less_than (x t u : ℕ) : Except String ℕ :=
  Except.ok (checkLessThanWitness x t u).check

/-- An assignment of the cells consulted by the `x < t constraint` gate and the
diff lookup argument configured in `RangeCheckChip::configure`. -/
structure LessThanAssignment where
  x : ℕ
  t : ℕ
  u : ℕ
  check : ℕ
  diff : ℕ
deriving Repr, DecidableEq

/-- First polynomial constraint of the `x < t constraint` gate:
`check * (1 - check) = 0` (the `check` cell is boolean). -/
def booleanGateHolds (a : LessThanAssignment) : Prop :=
  fmul a.check (fsub 1 a.check) = 0

/-- Second polynomial constraint of the `x < t constraint` gate:
`diff = check * (x - t + u)` in the field. -/
def diffGateHolds (a : LessThanAssignment) : Prop :=
  a.diff = fmul a.check (fadd (fsub a.x a.t) a.u)

/-- The diff lookup argument: when `diff_lookup_selector` is enabled the `diff`
cell must be a member of the 0..255 lookup table. -/
def diffLookupHolds (a : LessThanAssignment) : Prop :=
  a.diff ∈ lookupTable

/-- All constraints of one `check x < t` region with the diff lookup selector
enabled (which `check_less_than` does whenever `u < 256`). -/
def lessThanConstraintsHold (a : LessThanAssignment) : Prop :=
  booleanGateHolds a ∧ diffGateHolds a ∧ diffLookupHolds a

instance (a : LessThanAssignment) : Decidable (booleanGateHolds a) := by
  unfold booleanGateHolds; infer_instance

instance (a : LessThanAssignment) : Decidable (diffGateHolds a) := by
  unfold diffGateHolds; infer_instance

instance (a : LessThanAssignment) : Decidable (diffLookupHolds a) := by
  unfold diffLookupHolds; infer_instance

instance (a : LessThanAssignment) : Decidable (lessThanConstraintsHold a) := by
  unfold lessThanConstraintsHold; infer_instance

/-- The cell assignment produced by an invocation of `check_less_than`. -/
def assignmentOf (x t u : ℕ) : LessThanAssignment :=
  let w := checkLessThanWitness x t u
  { x := w.x, t := w.t, u := w.u, check := w.check, diff := w.diff }

end RangeCheckChip

namespace RangeCheckChip

/-- Limb computation of `RangeCheckChip::decompose_64bit`
(src/circuit/range_check.rs): limb `i` is `(v >> (i * 8)) & 0xFF`. -/
def decompose_64bit (v : ℕ) : List ℕ :=
  (List.range 8).map (fun i => (v >>> (i * 8)) &&& 0xFF)

/-- Sum computed by the `decomposition sum` gate of `RangeCheckChip::configure`:
the fold `acc + c_i * 2^(8*i)` over the enumerated chunks. -/
def decompositionSumAux (i : ℕ) : List ℕ → ℕ
  | [] => 0
  | c :: rest => c * 2 ^ (8 * i) + decompositionSumAux (i + 1) rest

/-- `N = Σ c_i · 2^(8i)`, the right-hand side of the decomposition sum
constraint. -/
def decompositionSum (chunks : List ℕ) : ℕ := decompositionSumAux 0 chunks

end RangeCheckChip

lemma land_255_eq_mod (n : ℕ) : n &&& 255 = n % 256 := by
  have h := Nat.and_pow_two_sub_one_eq_mod n 8
  norm_num at h
  exact h

lemma range_eight : List.range 8 = [0, 1, 2, 3, 4, 5, 6, 7] := by decide

/-- C3: for every `x` in `[0, 2^64)` the eight limbs computed by
`decompose_64bit` satisfy `x = Σ limb_i · 256^i` with each limb in `[0,255]`. -/
theorem decompose_64bit_correct (x : ℕ) (hx : x < 2 ^ 64) :
    RangeCheckChip.decompositionSum (RangeCheckChip.decompose_64bit x) = x ∧
      ∀ c ∈ RangeCheckChip.decompose_64bit x, c ≤ 255 := by
  have hshift : ∀ n k : ℕ, n >>> k = n / 2 ^ k := fun n k =>
    Nat.shiftRight_eq_div_pow n k
  constructor
  · simp only [RangeCheckChip.decompose_64bit, range_eight, List.map_cons,
      List.map_nil, RangeCheckChip.decompositionSum,
      RangeCheckChip.decompositionSumAux, land_255_eq_mod, hshift]
    norm_num
    omega
  · intro c hc
    simp only [RangeCheckChip.decompose_64bit, range_eight, List.map_cons,
      List.map_nil, List.mem_cons, List.not_mem_nil, or_false] at hc
    rcases hc with h | h | h | h | h | h | h | h <;>
      (subst h; rw [land_255_eq_mod]; omega)

/-- C3 witness: `0x1234567890ABCDEF` is below `2^64`, its decomposition sums
back to it, and its limbs are `[0xEF,0xCD,0xAB,0x90,0x78,0x56,0x34,0x12]`. -/
theorem decompose_64bit_correct_witness :
    RangeCheckChip.decompositionSum
        (RangeCheckChip.decompose_64bit 0x1234567890ABCDEF) = 0x1234567890ABCDEF ∧
      RangeCheckChip.decompose_64bit 0x1234567890ABCDEF =
        [0xEF, 0xCD, 0xAB, 0x90, 0x78, 0x56, 0x34, 0x12] :=
  ⟨(decompose_64bit_correct 0x1234567890ABCDEF (by decide)).1, by decide⟩

lemma fadd_fsub_lt {x t u : ℕ} (hx : x < FP) (ht : t < FP) (hu : u < FP)
    (hxt : x < t) (hgap : t ≤ x + u) : fadd (fsub x t) u = x + u - t := by
  unfold fadd fsub
  rw [mod_FP_small ht]
  rw [mod_FP_small (a := x + (FP - t)) (by omega)]
  rw [mod_FP_wrap (by omega) (by omega)]
  omega

lemma two_pow_64_lt_FP : 2 ^ 64 < FP := by
  have h : (2 : ℕ) ^ 64 < 2 ^ 66 := by norm_num
  exact lt_trans h FP_big

lemma checkLessThanWitness_of_lt {x t u : ℕ} (hx : x < 2 ^ 64) (ht : t < 2 ^ 64)
    (hu : u < 2 ^ 64) (hxt : x < t) (hgap : t ≤ x + u) :
    RangeCheckChip.checkLessThanWitness x t u =
      { x := x, t := t, u := u, check := 1, diff := x + u - t,
        diffLookupEnabled := decide (u < 256) } := by
  have hxFP : x < FP := lt_trans hx two_pow_64_lt_FP
  have htFP : t < FP := lt_trans ht two_pow_64_lt_FP
  have huFP : u < FP := lt_trans hu two_pow_64_lt_FP
  unfold RangeCheckChip.checkLessThanWitness
  simp only [hxt, if_true, mod_FP_small hxFP, mod_FP_small htFP, mod_FP_small huFP]
  rw [fadd_fsub_lt hxFP htFP huFP hxt hgap]

lemma checkLessThanWitness_of_ge {x t u : ℕ} (hx : x < 2 ^ 64) (ht : t < 2 ^ 64)
    (hu : u < 2 ^ 64) (hxt : ¬ x < t) :
    RangeCheckChip.checkLessThanWitness x t u =
      { x := x, t := t, u := u, check := 0, diff := 0,
        diffLookupEnabled := decide (u < 256) } := by
  have hxFP : x < FP := lt_trans hx two_pow_64_lt_FP
  have htFP : t < FP := lt_trans ht two_pow_64_lt_FP
  have huFP : u < FP := lt_trans hu two_pow_64_lt_FP
  unfold RangeCheckChip.checkLessThanWitness
  simp only [hxt, if_false, mod_FP_small hxFP, mod_FP_small htFP, mod_FP_small huFP]

/-- C2 (amended): for every invocation of `check_less_than x t u` with `u`
positive and at least the gap `t - x`, the witnessed `check` is boolean and is
`1` iff `x < t`, the boolean and diff polynomial gates hold (so the witnessed
`diff` equals `check·(x − t + u)` in the field), the witnessed `diff` lies in
`[0, u)`, and when `u < 256` the diff lookup selector is enabled and the
witnessed `diff` is a member of the 0..255 lookup table.  (The lookup enforces
membership of `[0, 256)`, not of `[0, u)`.) -/
theorem check_less_than_gate_invariants (x t u : ℕ) (hx : x < 2 ^ 64)
    (ht : t < 2 ^ 64) (hu : u < 2 ^ 64) (hu0 : 0 < u) (hgap : t ≤ x + u) :
    ((RangeCheckChip.checkLessThanWitness x t u).check =
        if x < t then 1 else 0) ∧
      RangeCheckChip.booleanGateHolds (RangeCheckChip.assignmentOf x t u) ∧
      RangeCheckChip.diffGateHolds (RangeCheckChip.assignmentOf x t u) ∧
      (RangeCheckChip.checkLessThanWitness x t u).diff < u ∧
      (u < 256 →
        (RangeCheckChip.checkLessThanWitness x t u).diffLookupEnabled = true ∧
          RangeCheckChip.diffLookupHolds (RangeCheckChip.assignmentOf x t u)) := by
  have hxFP : x < FP := lt_trans hx two_pow_64_lt_FP
  have htFP : t < FP := lt_trans ht two_pow_64_lt_FP
  have huFP : u < FP := lt_trans hu two_pow_64_lt_FP
  by_cases hxt : x < t
  · have hw := checkLessThanWitness_of_lt hx ht hu hxt hgap
    have hdlt : x + u - t < u := by omega
    refine ⟨by rw [hw]; simp [hxt], ?_, ?_, by rw [hw]; exact hdlt, ?_⟩
    · unfold RangeCheckChip.booleanGateHolds RangeCheckChip.assignmentOf
      rw [hw]
      show fmul 1 (fsub 1 1) = 0
      decide
    · unfold RangeCheckChip.diffGateHolds RangeCheckChip.assignmentOf
      rw [hw]
      show x + u - t = fmul 1 (fadd (fsub x t) u)
      rw [fadd_fsub_lt hxFP htFP huFP hxt hgap]
      unfold fmul
      rw [one_mul, mod_FP_small (by omega)]
    · intro hu256
      refine ⟨by rw [hw]; simp [hu256], ?_⟩
      unfold RangeCheckChip.diffLookupHolds RangeCheckChip.assignmentOf
      rw [hw]
      show x + u - t ∈ RangeCheckChip.lookupTable
      unfold RangeCheckChip.lookupTable
      rw [List.mem_range]
      omega
  · have hw := checkLessThanWitness_of_ge hx ht hu hxt
    refine ⟨by rw [hw]; simp [hxt], ?_, ?_, by rw [hw]; exact hu0, ?_⟩
    · unfold RangeCheckChip.booleanGateHolds RangeCheckChip.assignmentOf
      rw [hw]
      show fmul 0 (fsub 1 0) = 0
      decide
    · unfold RangeCheckChip.diffGateHolds RangeCheckChip.assignmentOf
      rw [hw]
      show 0 = fmul 0 (fadd (fsub x t) u)
      unfold fmul
      rw [Nat.zero_mul]
      decide
    · intro hu256
      refine ⟨by rw [hw]; simp [hu256], ?_⟩
      unfold RangeCheckChip.diffLookupHolds RangeCheckChip.assignmentOf
      rw [hw]
      show 0 ∈ RangeCheckChip.lookupTable
      decide

/-- C2 witness: at `x = 5`, `t = 10`, `u = 100` the witnessed `diff` lies in
`[0, 100)` and the diff lookup selector is enabled. -/
theorem check_less_than_gate_invariants_witness :
    (RangeCheckChip.checkLessThanWitness 5 10 100).diff < 100 ∧
      (RangeCheckChip.checkLessThanWitness 5 10 100).diffLookupEnabled = true := by
  have h := check_less_than_gate_invariants 5 10 100 (by norm_num) (by norm_num)
    (by norm_num) (by norm_num) (by norm_num)
  exact ⟨h.2.2.2.1, (h.2.2.2.2 (by norm_num)).1⟩

/-- C2 counterexample: with fixed `t = 5`, `u = 100 < 256`, the assignment
`x = 10`, `check = 1`, `diff = 105` satisfies the boolean gate, the diff gate
and the diff lookup (and the invocation does enable the diff lookup selector),
yet `diff = 105` lies outside `[0, u) = [0, 100)`: the lookup only enforces
membership of `[0, 256)`. -/
theorem check_less_than_lookup_not_tight :
    RangeCheckChip.lessThanConstraintsHold
        { x := 10, t := 5, u := 100, check := 1, diff := 105 } ∧
      (RangeCheckChip.checkLessThanWitness 10 5 100).diffLookupEnabled = true ∧
      ¬ (105 : ℕ) < 100 := by
  refine ⟨⟨?_, ?_, ?_⟩, by decide, by omega⟩
  · decide
  · decide
  · decide

/-- C4 (amended): `check_less_than` does not reject `u ≥ 256`: it returns the
check cell successfully and merely skips enabling the diff lookup selector, so
the witnessed `diff` is not bound by any lookup. -/
theorem check_less_than_accepts_large_u (x t u : ℕ) (hu : 256 ≤ u) :
    (RangeCheckChip.check_less_than x t u).isOk = true ∧
      (RangeCheckChip.checkLessThanWitness x t u).diffLookupEnabled = false := by
  constructor
  · rfl
  · unfold RangeCheckChip.checkLessThanWitness
    simp only [decide_eq_false_iff_not]
    omega

/-- C4 witness: at `x = 0`, `t = 0`, `u = 256` the call succeeds and the diff
lookup selector stays disabled. -/
theorem check_less_than_accepts_large_u_witness :
    (RangeCheckChip.check_less_than 0 0 256).isOk = true ∧
      (RangeCheckChip.checkLessThanWitness 0 0 256).diffLookupEnabled = false :=
  check_less_than_accepts_large_u 0 0 256 (by omega)

/-- C4 counterexample: the call `check_less_than 1500 1000 1000` has
`u = 1000 ≥ 256`, yet it returns successfully (it is not rejected with a
validation or unsupported-configuration error); the diff lookup selector is
simply left disabled. -/
theorem check_less_than_large_u_not_rejected :
    (RangeCheckChip.check_less_than 1500 1000 1000).isOk = true ∧
      (RangeCheckChip.checkLessThanWitness 1500 1000 1000).diffLookupEnabled
        = false := by
  constructor
  · rfl
  · decide

/-- C1: for all `x`, `t`, `u` with `u` strictly greater than the adjusted gap
`t - x`, `check_less_than x t u` returns the boolean cell with value `1` if
`x < t` and `0` otherwise. -/
theorem check_less_than_correct (x t u : ℕ) (hu : t - x < u) :
    RangeCheckChip.check_less_than x t u =
      Except.ok (if x < t then 1 else 0) := by
  unfold RangeCheckChip.check_less_than RangeCheckChip.checkLessThanWitness
  by_cases h : x < t <;> simp [h]

/-- C1 witness: `less_than(500,1000,1000)` yields `true` (cell value `1`) and
`less_than(1500,1000,1000)` yields `false` (cell value `0`). -/
theorem check_less_than_correct_witness :
    RangeCheckChip.check_less_than 500 1000 1000 = Except.ok 1 ∧
      RangeCheckChip.check_less_than 1500 1000 1000 = Except.ok 0 := by
  constructor
  · have h := check_less_than_correct 500 1000 1000 (by omega)
    simpa using h
  · have h := check_less_than_correct 1500 1000 1000 (by omega)
    simpa using h

/-- Error type of src/error.rs (`PoneglyphError`).  The validation helpers
construct only the `Validation` variant. -/
inductive PoneglyphError where
  | Synthesis (msg : String)
  | InvalidInput (msg : String)
  | Validation (msg : String)
  | Serialization (msg : String)
  | Configuration (msg : String)
deriving Repr, DecidableEq

/-- `validate_range` from src/validation.rs: rejects `value < min` and
`value >= max` with a `Validation` error, otherwise returns `Ok(())`. -/
def validate_range (value min max : ℕ) (error_msg : String) :
    Except PoneglyphError Unit :=
  if value < min ∨ value ≥ max then
    Except.error (PoneglyphError.Validation
      (error_msg ++ ": value " ++ Nat.repr value ++ " is not in range [" ++
        Nat.repr min ++ ", " ++ Nat.repr max ++ ")"))
  else
    Except.ok ()

/-- Loop body of `validate_sorted` from src/validation.rs: walks the keys
carrying the previous key and the current index `i`, and returns the
`Validation` error of the first index whose key is below its predecessor. -/
def validateSortedAux {α : Type} [LinearOrder α] (error_msg : String) :
    α → List α → ℕ → Except PoneglyphError Unit
  | _, [], _ => Except.ok ()
  | prev, k :: rest, i =>
    if k < prev then
      Except.error (PoneglyphError.Validation
        (error_msg ++ ": keys are not sorted at index " ++ Nat.repr i))
    else
      validateSortedAux error_msg k rest (i + 1)

/-- `validate_sorted` from src/validation.rs: `for i in 1..keys.len()`, error
on the first `keys[i] < keys[i-1]`, else `Ok(())`. -/
def validate_sorted {α : Type} [LinearOrder α] (keys : List α)
    (error_msg : String) : Except PoneglyphError Unit :=
  match keys with
  | [] => Except.ok ()
  | k :: rest => validateSortedAux error_msg k rest 1


lemma validateSortedAux_ok_iff {α : Type} [LinearOrder α] (msg : String)
    (l : List α) : ∀ (prev : α) (i : ℕ),
    validateSortedAux msg prev l i = Except.ok () ↔
      List.Chain' (· ≤ ·) (prev :: l) := by
  induction l with
  | nil =>
    intro prev i
    simp [validateSortedAux]
  | cons k rest ih =>
    intro prev i
    by_cases h : k < prev
    · simp only [validateSortedAux, if_pos h, List.chain'_cons]
      constructor
      · intro hc
        exact absurd hc (by simp)
      · intro hc
        exact absurd hc.1 (not_le.mpr h)
    · simp only [validateSortedAux, if_neg h, List.chain'_cons, ih k (i + 1)]
      simp [not_lt.mp h]

lemma validateSortedAux_error_at {α : Type} [LinearOrder α] (msg : String) :
    ∀ (pre : List α) (prev : α) (base : ℕ) (a b : α) (suf : List α),
      List.Chain' (· ≤ ·) (prev :: (pre ++ [a])) → b < a →
      validateSortedAux msg prev (pre ++ a :: b :: suf) base =
        Except.error (PoneglyphError.Validation
          (msg ++ ": keys are not sorted at index " ++
            Nat.repr (base + pre.length + 1))) := by
  intro pre
  induction pre with
  | nil =>
    intro prev base a b suf hchain hba
    have hpa : prev ≤ a := (List.chain'_cons.mp hchain).1
    have hstep : validateSortedAux msg prev ([] ++ a :: b :: suf) base =
        validateSortedAux msg a (b :: suf) (base + 1) := by
      show validateSortedAux msg prev (a :: b :: suf) base =
        validateSortedAux msg a (b :: suf) (base + 1)
      simp only [validateSortedAux, if_neg (not_lt.mpr hpa)]
    have herr : validateSortedAux msg a (b :: suf) (base + 1) =
        Except.error (PoneglyphError.Validation
          (msg ++ ": keys are not sorted at index " ++ Nat.repr (base + 1))) := by
      simp only [validateSortedAux, if_pos hba]
    rw [hstep, herr]
    simp
  | cons p pre' ih =>
    intro prev base a b suf hchain hba
    have hchain' := List.chain'_cons.mp (by simpa using hchain)
    have hpp : prev ≤ p := hchain'.1
    have h := ih p (base + 1) a b suf (by simpa using hchain'.2) hba
    have hstep : validateSortedAux msg prev ((p :: pre') ++ a :: b :: suf) base =
        validateSortedAux msg p (pre' ++ a :: b :: suf) (base + 1) := by
      show validateSortedAux msg prev (p :: (pre' ++ a :: b :: suf)) base =
        validateSortedAux msg p (pre' ++ a :: b :: suf) (base + 1)
      simp only [validateSortedAux, if_neg (not_lt.mpr hpp)]
    have harith : base + 1 + pre'.length + 1 = base + (p :: pre').length + 1 := by
      simp only [List.length_cons]
      omega
    rw [hstep, h, harith]

/-- C9: `validate_sorted` returns `Ok` iff the slice is non-decreasing
(adjacent equal elements accepted, so empty and singleton slices pass), and on
an unsorted slice it returns the `Validation` error naming the first index `i`
with `keys[i] < keys[i-1]`. -/
theorem validate_sorted_spec {α : Type} [LinearOrder α] (keys : List α)
    (msg : String) :
    (validate_sorted keys msg = Except.ok () ↔ List.Chain' (· ≤ ·) keys) ∧
      (∀ (pre : List α) (a b : α) (suf : List α),
        keys = pre ++ a :: b :: suf → b < a →
        List.Chain' (· ≤ ·) (pre ++ [a]) →
        validate_sorted keys msg =
          Except.error (PoneglyphError.Validation
            (msg ++ ": keys are not sorted at index " ++
              Nat.repr (pre.length + 1)))) := by
  constructor
  · match keys with
    | [] => simp [validate_sorted]
    | k :: rest => exact validateSortedAux_ok_iff msg rest k 1
  · intro pre a b suf heq hba hchain
    match pre, heq with
    | [], heq =>
      match keys, heq with
      | _, rfl =>
        simp only [validate_sorted, List.nil_append, validateSortedAux,
          if_pos hba, List.length_nil]
    | p :: pre', heq =>
      match keys, heq with
      | _, rfl =>
        have h := validateSortedAux_error_at msg pre' p 1 a b suf
          (by simpa using hchain) hba
        simp only [validate_sorted, List.cons_append] at h ⊢
        rw [h]
        have harith : 1 + pre'.length + 1 = (p :: pre').length + 1 := by
          simp
          omega
        rw [harith]

/-- C9 witness: `[1,2,3]` validates, and `[3,2,1]` is rejected with a
`Validation` error naming index 1 (the first descent). -/
theorem validate_sorted_spec_witness :
    validate_sorted ([1, 2, 3] : List ℕ) "test" = Except.ok () ∧
      validate_sorted ([3, 2, 1] : List ℕ) "test" =
        Except.error (PoneglyphError.Validation
          "test: keys are not sorted at index 1") := by
  constructor
  · exact (validate_sorted_spec [1, 2, 3] "test").1.mpr
      (by simp [List.chain'_cons])
  · have h := (validate_sorted_spec ([3, 2, 1] : List ℕ) "test").2
      [] 3 2 [1] rfl (by omega) (by simp)
    exact h

/-- C10: `validate_range` treats the range as half-open: it returns `Ok` iff
`min ≤ value < max`, and in particular `value = max` is always rejected. -/
theorem validate_range_spec (value lo hi : ℕ) (msg : String) :
    (validate_range value lo hi msg = Except.ok () ↔ lo ≤ value ∧ value < hi) ∧
      validate_range hi lo hi msg ≠ Except.ok () := by
  constructor
  · unfold validate_range
    by_cases h : value < lo ∨ value ≥ hi
    · rw [if_pos h]
      constructor
      · intro hc
        exact absurd hc (by simp)
      · intro hc
        exact absurd hc (by omega)
    · rw [if_neg h]
      constructor
      · intro _
        omega
      · intro _
        rfl
  · unfold validate_range
    have h : hi < lo ∨ hi ≥ hi := Or.inr (le_refl hi)
    rw [if_pos h]
    intro hc
    exact absurd hc (by simp)

namespace SortChip

/-- Modelled from the spec: the sortedness half of `SortChip::sort_and_verify`
(src/circuit/sort.rs is declared in src/circuit/mod.rs but missing from the
tree).  Spec 4.3: sortedness is proved by invoking the Range/Threshold Gate on
every adjacent output pair `(out[i], out[i+1])` with a `t = out[i+1]+1`-style
threshold to assert `out[i] <= out[i+1]`; the check cell must witness `1`. -/
def sortedCheck : List ℕ → Bool
  | [] => true
  | [_] => true
  | a :: b :: rest =>
    ((RangeCheckChip.checkLessThanWitness a (b + 1) (b + 2)).check == 1) &&
      sortedCheck (b :: rest)

/-- Modelled from the spec: `SortChip::sort_and_verify` (source file missing
from the tree).  Spec 4.3: the claimed output must be a multiset permutation
of the input (grand-product / multiset-equality argument, idealised here as
multiset equality) and non-decreasing (adjacent Range/Threshold checks); the
verdict is the conjunction of the two. -/
def sort_and_verify (input output : List ℕ) : Bool :=
  input.isPerm output && sortedCheck output

end SortChip

lemma checkLessThanWitness_check (x t u : ℕ) :
    (RangeCheckChip.checkLessThanWitness x t u).check =
      if x < t then 1 else 0 := rfl

lemma sortedCheck_iff : ∀ l : List ℕ,
    SortChip.sortedCheck l = true ↔ List.Chain' (· ≤ ·) l
  | [] => by simp [SortChip.sortedCheck]
  | [a] => by simp [SortChip.sortedCheck]
  | a :: b :: rest => by
    have hcheck :
        (((RangeCheckChip.checkLessThanWitness a (b + 1) (b + 2)).check == 1)
            = true) ↔ a ≤ b := by
      rw [checkLessThanWitness_check]
      by_cases h : a < b + 1
      · simp only [if_pos h, beq_self_eq_true, true_iff]
        omega
      · simp only [if_neg h]
        constructor
        · intro hc
          exact absurd hc (by simp)
        · intro hc
          omega
    rw [SortChip.sortedCheck, Bool.and_eq_true, hcheck,
      sortedCheck_iff (b :: rest), List.chain'_cons]

/-- C5: `sort_and_verify` accepts exactly the witnesses whose output is a
multiset permutation of the input and is non-decreasing; an honestly sorted
witness therefore passes, and any output that is not a permutation or has a
descending adjacent pair fails. -/
theorem sort_and_verify_correct (input output : List ℕ) :
    SortChip.sort_and_verify input output = true ↔
      input.Perm output ∧ List.Chain' (· ≤ ·) output := by
  unfold SortChip.sort_and_verify
  rw [Bool.and_eq_true, sortedCheck_iff, List.isPerm_iff]

/-- C5 witness: input `[3,1,4,1,5]` with output `[1,1,3,4,5]` passes; for input
`[3,1,2]` the output `[1,3,2]` fails (order) and the output `[1,1,2]` fails
(permutation). -/
theorem sort_and_verify_correct_witness :
    SortChip.sort_and_verify [3, 1, 4, 1, 5] [1, 1, 3, 4, 5] = true ∧
      SortChip.sort_and_verify [3, 1, 2] [1, 3, 2] = false ∧
      SortChip.sort_and_verify [3, 1, 2] [1, 1, 2] = false := by
  refine ⟨(sort_and_verify_correct [3, 1, 4, 1, 5] [1, 1, 3, 4, 5]).mpr
    ⟨List.isPerm_iff.mp (by decide), by simp [List.chain'_cons]⟩, ?_, ?_⟩
  · decide
  · decide

namespace GroupByChip

/-- Modelled from the spec: boundary bits of `GroupByChip::group_and_verify`
for the rows after the first (src/circuit/group_by.rs is declared in
src/circuit/mod.rs but missing from the tree).  Spec 4.4: row `i > 0` is a
boundary iff `key[i] != key[i-1]`. -/
def boundariesAux (prev : ℕ) : List ℕ → List ℕ
  | [] => []
  | k :: rest => (if k = prev then 0 else 1) :: boundariesAux k rest

/-- Modelled from the spec: `GroupByChip::group_and_verify` (source file
missing from the tree).  Spec 4.4: one boundary bit per row; row 0 is always a
boundary; an empty key sequence yields no boundaries. -/
def group_and_verify (keys : List ℕ) : List ℕ :=
  match keys with
  | [] => []
  | k :: rest => 1 :: boundariesAux k rest

end GroupByChip

lemma boundariesAux_length (l : List ℕ) : ∀ prev : ℕ,
    (GroupByChip.boundariesAux prev l).length = l.length := by
  induction l with
  | nil => intro prev; rfl
  | cons k rest ih =>
    intro prev
    simp [GroupByChip.boundariesAux, ih k]

lemma boundariesAux_getD (l : List ℕ) : ∀ (prev : ℕ) (i : ℕ), i < l.length →
    (GroupByChip.boundariesAux prev l).getD i 0 =
      if l.getD i 0 = (prev :: l).getD i 0 then 0 else 1 := by
  induction l with
  | nil =>
    intro prev i h
    exact absurd h (by simp)
  | cons k rest ih =>
    intro prev i h
    match i with
    | 0 => simp [GroupByChip.boundariesAux]
    | Nat.succ j =>
      simp only [GroupByChip.boundariesAux, List.getD_cons_succ]
      exact ih k j (by simpa using h)

/-- C7: `group_and_verify` produces one boundary bit per row, with
`boundary[0] = 1` and, for `i > 0`, `boundary[i] = 1` iff `key[i]` differs
from `key[i-1]`. -/
theorem group_and_verify_boundaries (keys : List ℕ) :
    (GroupByChip.group_and_verify keys).length = keys.length ∧
      (0 < keys.length → (GroupByChip.group_and_verify keys).getD 0 0 = 1) ∧
      (∀ i : ℕ, i + 1 < keys.length →
        (GroupByChip.group_and_verify keys).getD (i + 1) 0 =
          if keys.getD (i + 1) 0 = keys.getD i 0 then 0 else 1) := by
  match keys with
  | [] =>
    refine ⟨rfl, by simp, ?_⟩
    intro i h
    exact absurd h (by simp)
  | k :: rest =>
    refine ⟨?_, fun _ => rfl, ?_⟩
    · simp [GroupByChip.group_and_verify, boundariesAux_length]
    · intro i h
      have h' : i < rest.length := by simpa using h
      show (GroupByChip.boundariesAux k rest).getD i 0 =
        if rest.getD i 0 = (k :: rest).getD i 0 then 0 else 1
      exact boundariesAux_getD rest k i h'

/-- C7 witness: sorted keys `[1,1,2,2,2,3,3]` give boundary bits
`[1,0,1,0,0,1,0]` (boundaries exactly at indices 0, 2 and 5), the first bit is
`1`, and the empty input yields no boundaries. -/
theorem group_and_verify_boundaries_witness :
    GroupByChip.group_and_verify [1, 1, 2, 2, 2, 3, 3] = [1, 0, 1, 0, 0, 1, 0] ∧
      (GroupByChip.group_and_verify [1, 1, 2, 2, 2, 3, 3]).getD 0 0 = 1 ∧
      GroupByChip.group_and_verify ([] : List ℕ) = [] := by
  refine ⟨by decide, ?_, rfl⟩
  exact (group_and_verify_boundaries [1, 1, 2, 2, 2, 3, 3]).2.1 (by decide)

namespace JoinChip

/-- Modelled from the spec: `JoinChip::join_and_verify` (src/circuit/join.rs is
declared in src/circuit/mod.rs but missing from the tree).  Spec 4.5
(merge-join semantics): the output contains exactly the pairs whose keys are
equal, each match contributing one output row `(key, value1, value2)`;
candidates with no matching key on the other side are omitted. -/
def join_and_verify (table1_keys table1_values table2_keys table2_values :
    List ℕ) : List (ℕ × ℕ × ℕ) :=
  (table1_keys.zip table1_values).flatMap (fun r1 =>
    ((table2_keys.zip table2_values).filter (fun r2 => r2.1 == r1.1)).map
      (fun r2 => (r1.1, r1.2, r2.2)))

end JoinChip

/-- C8: `join_and_verify` outputs a row for each pair of rows with equal keys
(one row per actual match); disjoint key sets yield zero matches; keys
`[1,2,3]` against `[2,3,4]` yield exactly the two matches with keys 2 and 3;
PK keys `[1,2,3]` against FK keys `[1,1,2]` yield three matches (one-to-many
fan-out). -/
theorem join_and_verify_matches :
    (∀ (k1 v1 k2 v2 : List ℕ) (p : ℕ × ℕ × ℕ),
        p ∈ JoinChip.join_and_verify k1 v1 k2 v2 ↔
          ∃ r1 ∈ k1.zip v1, ∃ r2 ∈ k2.zip v2,
            r1.1 = r2.1 ∧ p = (r1.1, r1.2, r2.2)) ∧
      (∀ k1 v1 k2 v2 : List ℕ, (∀ a ∈ k1, a ∉ k2) →
        JoinChip.join_and_verify k1 v1 k2 v2 = []) ∧
      JoinChip.join_and_verify [1, 2, 3] [10, 20, 30] [2, 3, 4] [200, 300, 400]
        = [(2, 20, 200), (3, 30, 300)] ∧
      JoinChip.join_and_verify [1, 2, 3] [100, 200, 300] [1, 1, 2] [11, 12, 21]
        = [(1, 100, 11), (1, 100, 12), (2, 200, 21)] := by
  refine ⟨?_, ?_, by decide, by decide⟩
  · intro k1 v1 k2 v2 p
    unfold JoinChip.join_and_verify
    simp only [List.mem_flatMap, List.mem_map, List.mem_filter, beq_iff_eq]
    constructor
    · rintro ⟨r1, hr1, r2, ⟨hr2, hkey⟩, hp⟩
      exact ⟨r1, hr1, r2, hr2, hkey.symm, hp.symm⟩
    · rintro ⟨r1, hr1, r2, hr2, hkey, hp⟩
      exact ⟨r1, hr1, r2, ⟨hr2, hkey.symm⟩, hp.symm⟩
  · intro k1 v1 k2 v2 hdisj
    unfold JoinChip.join_and_verify
    rw [List.flatMap_eq_nil_iff]
    intro r1 hr1
    rw [List.map_eq_nil_iff, List.filter_eq_nil_iff]
    intro r2 hr2
    have h1 : r1.1 ∈ k1 := (List.of_mem_zip hr1).1
    have h2 : r2.1 ∈ k2 := (List.of_mem_zip hr2).1
    simp only [beq_iff_eq]
    intro hkey
    rw [hkey] at h2
    exact hdisj r1.1 h1 h2

/-- C8 witness: tables with disjoint key sets `[1,2,3]` and `[4,5,6]` produce
zero matches. -/
theorem join_and_verify_matches_witness :
    JoinChip.join_and_verify [1, 2, 3] [10, 20, 30] [4, 5, 6] [40, 50, 60]
      = [] :=
  join_and_verify_matches.2.1 [1, 2, 3] [10, 20, 30] [4, 5, 6] [40, 50, 60]
    (by decide)

namespace AggregationChip

/-- Modelled from the spec: accumulator reset of
`AggregationChip::aggregate_and_verify` at a group boundary
(src/circuit/aggregation.rs is declared in src/circuit/mod.rs but missing from
the tree).  Spec 4.6: at a boundary row SUM resets to the row value, COUNT
resets to 1, MAX and MIN reset to the row value. -/
def aggInit (agg_type : String) (v : ℕ) : ℕ :=
  if agg_type = "count" then 1 else v

/-- Modelled from the spec: accumulator update at a non-boundary row.  Spec
4.6: `acc + value` for SUM, `acc + 1` for COUNT, `max acc value` for MAX,
`min acc value` for MIN. -/
def aggStep (agg_type : String) (acc v : ℕ) : ℕ :=
  if agg_type = "sum" then acc + v
  else if agg_type = "count" then acc + 1
  else if agg_type = "max" then Nat.max acc v
  else Nat.min acc v

/-- Modelled from the spec: row-by-row accumulation over the remaining
key/value rows, publishing the accumulator at each row preceding a boundary
(key change) and at the final row. -/
def aggRun (agg_type : String) (prev : ℕ) (acc : ℕ) :
    List (ℕ × ℕ) → List ℕ
  | [] => [acc]
  | (k, v) :: rest =>
    if k = prev then aggRun agg_type k (aggStep agg_type acc v) rest
    else acc :: aggRun agg_type k (aggInit agg_type v) rest

/-- Modelled from the spec: `AggregationChip::aggregate_and_verify` (source
file missing from the tree).  Spec 4.6: given sorted group keys, values of
equal length and an aggregation kind (`"sum"`, `"count"`, `"max"`, `"min"`),
produce the per-group aggregates; empty input yields an empty result. -/
def aggregate_and_verify (group_keys values : List ℕ) (agg_type : String) :
    List ℕ :=
  match group_keys.zip values with
  | [] => []
  | (k, v) :: rest => aggRun agg_type k (aggInit agg_type v) rest

end AggregationChip

/-- C6: for sorted keys `[1,1,2,2,2,3,3]` and values `[10,...,70]`,
`aggregate_and_verify` yields per-group SUM `[30,120,130]`, COUNT `[2,3,2]`,
MAX `[20,50,70]` and MIN `[10,30,60]`; a single-element group aggregates to
`(value, 1, value, value)` for (SUM, COUNT, MAX, MIN); empty input yields an
empty result. -/
theorem aggregate_and_verify_results :
    AggregationChip.aggregate_and_verify [1, 1, 2, 2, 2, 3, 3]
        [10, 20, 30, 40, 50, 60, 70] "sum" = [30, 120, 130] ∧
      AggregationChip.aggregate_and_verify [1, 1, 2, 2, 2, 3, 3]
        [10, 20, 30, 40, 50, 60, 70] "count" = [2, 3, 2] ∧
      AggregationChip.aggregate_and_verify [1, 1, 2, 2, 2, 3, 3]
        [10, 20, 30, 40, 50, 60, 70] "max" = [20, 50, 70] ∧
      AggregationChip.aggregate_and_verify [1, 1, 2, 2, 2, 3, 3]
        [10, 20, 30, 40, 50, 60, 70] "min" = [10, 30, 60] ∧
      (∀ k v : ℕ,
        AggregationChip.aggregate_and_verify [k] [v] "sum" = [v] ∧
          AggregationChip.aggregate_and_verify [k] [v] "count" = [1] ∧
          AggregationChip.aggregate_and_verify [k] [v] "max" = [v] ∧
          AggregationChip.aggregate_and_verify [k] [v] "min" = [v]) ∧
      (∀ agg_type : String,
        AggregationChip.aggregate_and_verify [] [] agg_type = []) := by
  refine ⟨by decide, by decide, by decide, by decide, ?_, fun _ => rfl⟩
  intro k v
  refine ⟨rfl, rfl, rfl, rfl⟩
